import Mathlib

/-!
Verification of the YOLO box post-processing pipeline and the standalone
deep-learning exercises of this repository, embedded shallowly over the
rationals.  Tensors are modelled as lists (flattening the 19 x 19 x 5 grid
of the notebook into one enumeration of boxes), real arithmetic as exact
rational arithmetic, and the TensorFlow primitives used by the code
(`K.max`, `K.argmax`, `tf.boolean_mask`, `K.gather`) as the corresponding
list operations.
-/

/-- Axis-aligned box in corner form `(x1, y1, x2, y2)`, the list layout the
source `iou` indexes as `box[0] .. box[3]`. -/
structure Box where
  x1 : ℚ
  y1 : ℚ
  x2 : ℚ
  y2 : ℚ
deriving DecidableEq, Repr

/-- Intersection area as computed inside `iou`: per-axis max of starts and
min of ends, then `(yi2 - yi1) * (xi2 - xi1)` with no clamping of negative
deltas. -/
def inter_area (box1 box2 : Box) : ℚ :=
  let xi1 := max box1.x1 box2.x1
  let yi1 := max box1.y1 box2.y1
  let xi2 := min box1.x2 box2.x2
  let yi2 := min box1.y2 box2.y2
  (yi2 - yi1) * (xi2 - xi1)

/-- Area of a corner-form box, `(x2 - x1) * (y2 - y1)`, as computed for
`box1_area` and `box2_area` inside `iou`. -/
def box_area (b : Box) : ℚ :=
  (b.x2 - b.x1) * (b.y2 - b.y1)

/-- Union area as computed inside `iou`:
`box1_area + box2_area - inter_area`. -/
def union_area (box1 box2 : Box) : ℚ :=
  box_area box1 + box_area box2 - inter_area box1 box2

/-- The `iou` function of the notebook: `inter_area / union_area`.
Division is rational division; the source performs the same division
unguarded (Python would raise on a zero denominator). -/
def iou (box1 box2 : Box) : ℚ :=
  inter_area box1 box2 / union_area box1 box2

/-- C5: `iou((2,1,4,3),(1,2,3,4))` is exactly the rational `1/7`
(intersection area 1, union area `4 + 4 - 1 = 7`); the decimal
`0.14285714285714285` printed by the notebook is the floating-point
rendering of this value. -/
theorem iou_scenario_one_seventh :
    iou ⟨2, 1, 4, 3⟩ ⟨1, 2, 3, 4⟩ = 1 / 7 := by
  norm_num [iou, inter_area, union_area, box_area, max_def, min_def]

/-- C3: `iou` does not clamp negative intersection width to zero: on the
disjoint non-degenerate boxes `(0,0,1,1)` and `(2,0,3,1)`, separated along
the x axis only, it returns the strictly negative value `-1/3`, so its
output is not confined to `[0, 1]`. -/
theorem iou_negative_on_disjoint :
    (Box.mk 0 0 1 1).x2 < (Box.mk 2 0 3 1).x1 ∧
    (Box.mk 0 0 1 1).x1 < (Box.mk 0 0 1 1).x2 ∧
    (Box.mk 0 0 1 1).y1 < (Box.mk 0 0 1 1).y2 ∧
    (Box.mk 2 0 3 1).x1 < (Box.mk 2 0 3 1).x2 ∧
    (Box.mk 2 0 3 1).y1 < (Box.mk 2 0 3 1).y2 ∧
    iou ⟨0, 0, 1, 1⟩ ⟨2, 0, 3, 1⟩ = -(1 / 3) ∧
    iou ⟨0, 0, 1, 1⟩ ⟨2, 0, 3, 1⟩ < 0 := by
  refine ⟨by norm_num, by norm_num, by norm_num, by norm_num, by norm_num, ?_, ?_⟩ <;>
    norm_num [iou, inter_area, union_area, box_area, max_def, min_def]

/-- C6: for every non-degenerate corner-form box `b` (with `x2 > x1` and
`y2 > y1`), `iou b b = 1`. -/
theorem iou_self (b : Box) (hx : b.x1 < b.x2) (hy : b.y1 < b.y2) :
    iou b b = 1 := by
  have harea : 0 < box_area b := by
    have h1 : 0 < b.x2 - b.x1 := by linarith
    have h2 : 0 < b.y2 - b.y1 := by linarith
    exact mul_pos h1 h2
  have hinter : inter_area b b = box_area b := by
    simp [inter_area, box_area]
    ring
  have hunion : union_area b b = box_area b := by
    simp [union_area, hinter]
  rw [iou, hinter, hunion]
  exact div_self (ne_of_gt harea)

/-- Witness for `iou_self` at the concrete unit box. -/
theorem iou_self_witness :
    iou ⟨0, 0, 1, 1⟩ ⟨0, 0, 1, 1⟩ = 1 :=
  iou_self ⟨0, 0, 1, 1⟩ (by norm_num) (by norm_num)

/-- C9: when both boxes have strictly positive area and the intersection
rectangle is non-empty on both axes, the `union_area` computed inside
`iou` is strictly positive, so the final division never divides by zero.
Without these preconditions the division is unguarded (two identical
zero-area boxes give `union_area = 0`). -/
theorem union_area_pos (b1 b2 : Box)
    (h1x : b1.x1 < b1.x2) (h1y : b1.y1 < b1.y2)
    (h2x : b2.x1 < b2.x2) (h2y : b2.y1 < b2.y2)
    (hx : max b1.x1 b2.x1 ≤ min b1.x2 b2.x2)
    (hy : max b1.y1 b2.y1 ≤ min b1.y2 b2.y2) :
    0 < union_area b1 b2 := by
  have hxw : 0 ≤ min b1.x2 b2.x2 - max b1.x1 b2.x1 := by linarith
  have hyw : 0 ≤ min b1.y2 b2.y2 - max b1.y1 b2.y1 := by linarith
  have hxw1 : min b1.x2 b2.x2 - max b1.x1 b2.x1 ≤ b1.x2 - b1.x1 := by
    have := min_le_left b1.x2 b2.x2
    have := le_max_left b1.x1 b2.x1
    linarith
  have hyw1 : min b1.y2 b2.y2 - max b1.y1 b2.y1 ≤ b1.y2 - b1.y1 := by
    have := min_le_left b1.y2 b2.y2
    have := le_max_left b1.y1 b2.y1
    linarith
  have hinter_le : inter_area b1 b2 ≤ box_area b1 := by
    rw [inter_area, box_area]
    calc (min b1.y2 b2.y2 - max b1.y1 b2.y1) * (min b1.x2 b2.x2 - max b1.x1 b2.x1)
        ≤ (b1.y2 - b1.y1) * (b1.x2 - b1.x1) := by
          apply mul_le_mul hyw1 hxw1 hxw
          linarith
      _ = (b1.x2 - b1.x1) * (b1.y2 - b1.y1) := by ring
  have harea2 : 0 < box_area b2 := by
    have h1 : 0 < b2.x2 - b2.x1 := by linarith
    have h2 : 0 < b2.y2 - b2.y1 := by linarith
    exact mul_pos h1 h2
  rw [union_area]
  linarith

/-- Witness for `union_area_pos` on two concrete overlapping boxes. -/
theorem union_area_pos_witness :
    0 < union_area ⟨0, 0, 2, 2⟩ ⟨1, 1, 3, 3⟩ :=
  union_area_pos ⟨0, 0, 2, 2⟩ ⟨1, 1, 3, 3⟩
    (by norm_num) (by norm_num) (by norm_num) (by norm_num)
    (by norm_num) (by norm_num)

/-- Boolean masking over lists, the model of `tf.boolean_mask`: keeps the
entries whose mask bit is true, in their original order. -/
def booleanMask {α : Type} : List α → List Bool → List α
  | [], _ => []
  | _, [] => []
  | x :: xs, b :: bs => if b then x :: booleanMask xs bs else booleanMask xs bs

/-- Maximum of a list of rationals, the model of `K.max` along the class
axis (that axis is never empty in the notebook, where it has length 80). -/
def listMax : List ℚ → ℚ
  | [] => 0
  | x :: xs => xs.foldl max x

/-- Running scan keeping the index of the first maximal entry seen so far. -/
def argmaxAux : List ℚ → Nat → ℚ → Nat → Nat
  | [], _, _, best => best
  | x :: xs, i, bv, best =>
    if bv < x then argmaxAux xs (i + 1) x i else argmaxAux xs (i + 1) bv best

/-- Index of the first maximal entry, the model of `K.argmax` along the
class axis. -/
def listArgmax : List ℚ → Nat
  | [] => 0
  | x :: xs => argmaxAux xs 1 x 0

/-- Per-box scores `box_confidence * box_class_probs`: the broadcast of one
confidence over the class-probability vector of the box. -/
def boxScores (conf : ℚ) (probs : List ℚ) : List ℚ :=
  probs.map (fun p => conf * p)

/-- Per-box maximal class score, `K.max(box_scores, axis = -1)` taken over
the whole enumeration of boxes. -/
def boxClassScores (box_confidence : List ℚ) (box_class_probs : List (List ℚ)) : List ℚ :=
  (List.zipWith boxScores box_confidence box_class_probs).map listMax

/-- Per-box argmax class, `K.argmax(box_scores, axis = -1)` taken over the
whole enumeration of boxes. -/
def boxClasses (box_confidence : List ℚ) (box_class_probs : List (List ℚ)) : List Nat :=
  (List.zipWith boxScores box_confidence box_class_probs).map listArgmax

/-- The `yolo_filter_boxes` function of the notebook: per-box scores are
confidence times class probabilities, the kept class and score come from
argmax and max over the class axis, the mask is `box_class_scores >=
threshold`, and the mask is applied to scores, boxes and classes with
`tf.boolean_mask`. -/
def yolo_filter_boxes (box_confidence : List ℚ) (boxes : List Box)
    (box_class_probs : List (List ℚ)) (threshold : ℚ) :
    List ℚ × List Box × List Nat :=
  let box_scores := List.zipWith boxScores box_confidence box_class_probs
  let box_classes := box_scores.map listArgmax
  let box_class_scores := box_scores.map listMax
  let filtering_mask := box_class_scores.map (fun s => decide (threshold ≤ s))
  (booleanMask box_class_scores filtering_mask,
   booleanMask boxes filtering_mask,
   booleanMask box_classes filtering_mask)

/-- Masking a list with any mask yields an ordered selection of it. -/
theorem booleanMask_sublist {α : Type} (l : List α) (m : List Bool) :
    List.Sublist (booleanMask l m) l := by
  induction l generalizing m with
  | nil => cases m <;> simp [booleanMask]
  | cons x xs ih =>
    cases m with
    | nil => simp [booleanMask]
    | cons b bs =>
      cases b with
      | false => simpa [booleanMask] using List.Sublist.cons x (ih bs)
      | true => simpa [booleanMask] using List.Sublist.cons₂ x (ih bs)

/-- Masking a list with the pointwise test of itself is filtering. -/
theorem booleanMask_self_filter {α : Type} (p : α → Bool) (l : List α) :
    booleanMask l (l.map p) = l.filter p := by
  induction l with
  | nil => rfl
  | cons x xs ih =>
    cases hp : p x with
    | false => simp [booleanMask, hp, ih]
    | true => simp [booleanMask, hp, ih]

/-- Masking a parallel list with the pointwise test of another list of the
same length selects exactly the partners of the entries that pass. -/
theorem booleanMask_map_filter {α β : Type} (p : α → Bool) (xs : List α)
    (ys : List β) (h : xs.length = ys.length) :
    booleanMask ys (xs.map p) =
      ((xs.zip ys).filter (fun q => p q.1)).map Prod.snd := by
  induction xs generalizing ys with
  | nil =>
    cases ys with
    | nil => rfl
    | cons y ys => simp at h
  | cons x xs ih =>
    cases ys with
    | nil => simp at h
    | cons y ys =>
      have h' : xs.length = ys.length := by simpa using h
      cases hp : p x with
      | false => simp [booleanMask, hp, ih ys h']
      | true => simp [booleanMask, hp, ih ys h']

/-- C1: `yolo_filter_boxes` retains exactly the boxes whose maximal
per-class score (confidence times class probability, maximized over the
classes) is at least the threshold: the output scores are the per-box
maximal class scores filtered by `threshold ≤ score`, and the output boxes
are the input boxes paired with those scores and filtered by the same
predicate, so a box whose maximal score equals the threshold exactly is
retained. -/
theorem yolo_filter_boxes_exact (box_confidence : List ℚ) (boxes : List Box)
    (box_class_probs : List (List ℚ)) (threshold : ℚ)
    (hlen : (boxClassScores box_confidence box_class_probs).length = boxes.length) :
    (yolo_filter_boxes box_confidence boxes box_class_probs threshold).1 =
      (boxClassScores box_confidence box_class_probs).filter
        (fun s => decide (threshold ≤ s)) ∧
    (yolo_filter_boxes box_confidence boxes box_class_probs threshold).2.1 =
      (((boxClassScores box_confidence box_class_probs).zip boxes).filter
        (fun q => decide (threshold ≤ q.1))).map Prod.snd := by
  constructor
  · simp only [yolo_filter_boxes, boxClassScores]
    exact booleanMask_self_filter _ _
  · simp only [yolo_filter_boxes, boxClassScores] at hlen ⊢
    exact booleanMask_map_filter _ _ _ hlen

/-- Witness for `yolo_filter_boxes_exact` on two boxes with threshold
`3/5`: the first box scores exactly `3/5` and is retained, the second
scores `1/5` and is dropped. -/
theorem yolo_filter_boxes_exact_witness :
    (boxClassScores [1, 1] [[1/2, 3/5], [1/10, 1/5]]).length =
      [Box.mk 0 0 1 1, Box.mk 0 0 2 2].length ∧
    ((yolo_filter_boxes [1, 1] [Box.mk 0 0 1 1, Box.mk 0 0 2 2]
        [[1/2, 3/5], [1/10, 1/5]] (3/5)).1 =
      (boxClassScores [1, 1] [[1/2, 3/5], [1/10, 1/5]]).filter
        (fun s => decide ((3 : ℚ)/5 ≤ s)) ∧
    (yolo_filter_boxes [1, 1] [Box.mk 0 0 1 1, Box.mk 0 0 2 2]
        [[1/2, 3/5], [1/10, 1/5]] (3/5)).2.1 =
      (((boxClassScores [1, 1] [[1/2, 3/5], [1/10, 1/5]]).zip
          [Box.mk 0 0 1 1, Box.mk 0 0 2 2]).filter
        (fun q => decide ((3 : ℚ)/5 ≤ q.1))).map Prod.snd) :=
  ⟨rfl, yolo_filter_boxes_exact [1, 1] [Box.mk 0 0 1 1, Box.mk 0 0 2 2]
    [[1/2, 3/5], [1/10, 1/5]] (3/5) rfl⟩

/-- C7: `yolo_filter_boxes` is order-preserving: each returned sequence is
an ordered selection (sublist) of the corresponding per-box sequence in
the original enumeration order, namely of the per-box maximal class
scores, of the input boxes, and of the per-box argmax classes. -/
theorem yolo_filter_boxes_order_preserving (box_confidence : List ℚ)
    (boxes : List Box) (box_class_probs : List (List ℚ)) (threshold : ℚ) :
    List.Sublist (yolo_filter_boxes box_confidence boxes box_class_probs threshold).1
      (boxClassScores box_confidence box_class_probs) ∧
    List.Sublist (yolo_filter_boxes box_confidence boxes box_class_probs threshold).2.1
      boxes ∧
    List.Sublist (yolo_filter_boxes box_confidence boxes box_class_probs threshold).2.2
      (boxClasses box_confidence box_class_probs) := by
  refine ⟨?_, ?_, ?_⟩ <;>
  · simp only [yolo_filter_boxes, boxClassScores, boxClasses]
    exact booleanMask_sublist _ _

/-- Insertion of a scored candidate into a descending-by-score list. -/
def insertByScore (x : Nat × ℚ × Box) : List (Nat × ℚ × Box) → List (Nat × ℚ × Box)
  | [] => [x]
  | y :: ys => if y.2.1 < x.2.1 then x :: y :: ys else y :: insertByScore x ys

/-- Sorting of scored candidates by descending score. -/
def sortByScoreDesc : List (Nat × ℚ × Box) → List (Nat × ℚ × Box)
  | [] => []
  | x :: xs => insertByScore x (sortByScoreDesc xs)

/-- Greedy pass of non-max suppression over score-sorted candidates: a
candidate is kept when fewer than `max_boxes` boxes are kept so far and
its IoU with every kept box stays within the threshold; the scan stops
once the maximum count is reached. -/
def nmsGo (iou_threshold : ℚ) (max_boxes : Nat) :
    List Box → List (Nat × ℚ × Box) → List Nat
  | _, [] => []
  | kept, (i, _s, b) :: rest =>
    if max_boxes ≤ kept.length then []
    else if kept.all (fun kb => decide (iou b kb ≤ iou_threshold)) then
      i :: nmsGo iou_threshold max_boxes (b :: kept) rest
    else nmsGo iou_threshold max_boxes kept rest

/-- Modelled from the spec: `tf.image.non_max_suppression` is external
library code not present in the repository; the spec describes it as
selecting indices greedily by descending score, discarding any later box
whose IoU with an already-kept box exceeds the threshold, and stopping at
the maximum count. -/
def tf_image_non_max_suppression (boxes : List Box) (scores : List ℚ)
    (max_boxes : Nat) (iou_threshold : ℚ) : List Nat :=
  nmsGo iou_threshold max_boxes []
    (sortByScoreDesc ((List.range scores.length).map
      (fun i => (i, scores.getD i 0, boxes.getD i ⟨0, 0, 0, 0⟩))))

/-- Gathering by an index list, the model of `K.gather`; the indices
produced by NMS are valid positions, out-of-range indices fall back to a
default. -/
def gather {α : Type} (l : List α) (d : α) (idxs : List Nat) : List α :=
  idxs.map (fun i => l.getD i d)

/-- The `yolo_non_max_suppression` function of the notebook: obtains the
kept indices from `tf.image.non_max_suppression` and gathers scores, boxes
and classes at those indices with `K.gather`.  The `max_boxes_tensor`
variable the source allocates is never used by the computation and has no
semantic effect. -/
def yolo_non_max_suppression (scores : List ℚ) (boxes : List Box)
    (classes : List Nat) (max_boxes : Nat) (iou_threshold : ℚ) :
    List ℚ × List Box × List Nat :=
  let nms_indices := tf_image_non_max_suppression boxes scores max_boxes iou_threshold
  (gather scores 0 nms_indices,
   gather boxes ⟨0, 0, 0, 0⟩ nms_indices,
   gather classes 0 nms_indices)

/-- The greedy NMS pass keeps at most the remaining budget of boxes. -/
theorem nmsGo_length_le (iou_threshold : ℚ) (max_boxes : Nat)
    (cands : List (Nat × ℚ × Box)) :
    ∀ kept : List Box,
      (nmsGo iou_threshold max_boxes kept cands).length ≤ max_boxes - kept.length := by
  induction cands with
  | nil => intro kept; simp [nmsGo]
  | cons c rest ih =>
    intro kept
    obtain ⟨i, s, b⟩ := c
    simp only [nmsGo]
    by_cases h1 : max_boxes ≤ kept.length
    · simp [h1]
    · simp only [h1, if_false]
      by_cases h2 : kept.all (fun kb => decide (iou b kb ≤ iou_threshold)) = true
      · simp only [h2, if_true, List.length_cons]
        have := ih (b :: kept)
        simp only [List.length_cons] at this
        omega
      · simp only [h2, if_false]
        exact ih kept

/-- C4: each of the three sequences returned by `yolo_non_max_suppression`
has length at most `max_boxes`, for every input. -/
theorem yolo_nms_output_le_max_boxes (scores : List ℚ) (boxes : List Box)
    (classes : List Nat) (max_boxes : Nat) (iou_threshold : ℚ) :
    (yolo_non_max_suppression scores boxes classes max_boxes iou_threshold).1.length
      ≤ max_boxes ∧
    (yolo_non_max_suppression scores boxes classes max_boxes iou_threshold).2.1.length
      ≤ max_boxes ∧
    (yolo_non_max_suppression scores boxes classes max_boxes iou_threshold).2.2.length
      ≤ max_boxes := by
  have hidx : (tf_image_non_max_suppression boxes scores max_boxes iou_threshold).length
      ≤ max_boxes := by
    have h := nmsGo_length_le iou_threshold max_boxes
      (sortByScoreDesc ((List.range scores.length).map
        (fun i => (i, scores.getD i 0, boxes.getD i ⟨0, 0, 0, 0⟩)))) []
    simpa [tf_image_non_max_suppression] using h
  refine ⟨?_, ?_, ?_⟩ <;> simpa [yolo_non_max_suppression, gather] using hidx

/-- The `yolo_eval` function of the notebook, parametric in the two
external helpers it consumes as black boxes (`yolo_boxes_to_corners` from
`yad2k` and `scale_boxes` from `yolo_utils`): it destructures the model
outputs, converts boxes to corner form, score-filters them, rescales the
surviving boxes to the image shape, and applies non-max suppression.  As
in the source, the result depends only on the arguments; no state flows
between calls. -/
def yolo_eval
    (yolo_boxes_to_corners : List (ℚ × ℚ) → List (ℚ × ℚ) → List Box)
    (scale_boxes : List Box → ℚ × ℚ → List Box)
    (yolo_outputs : List ℚ × List (ℚ × ℚ) × List (ℚ × ℚ) × List (List ℚ))
    (image_shape : ℚ × ℚ) (max_boxes : Nat)
    (score_threshold iou_threshold : ℚ) : List ℚ × List Box × List Nat :=
  let box_confidence := yolo_outputs.1
  let box_xy := yolo_outputs.2.1
  let box_wh := yolo_outputs.2.2.1
  let box_class_probs := yolo_outputs.2.2.2
  let boxes := yolo_boxes_to_corners box_xy box_wh
  let filtered := yolo_filter_boxes box_confidence boxes box_class_probs score_threshold
  let rescaled := scale_boxes filtered.2.1 image_shape
  yolo_non_max_suppression filtered.1 rescaled filtered.2.2 max_boxes iou_threshold

/-- Chain stated by the spec for `yolo_eval`: corner conversion, then the
score filter, then the coordinate rescale of the surviving boxes, then
non-max suppression. -/
def yoloEvalSpecChain
    (yolo_boxes_to_corners : List (ℚ × ℚ) → List (ℚ × ℚ) → List Box)
    (scale_boxes : List Box → ℚ × ℚ → List Box)
    (yolo_outputs : List ℚ × List (ℚ × ℚ) × List (ℚ × ℚ) × List (List ℚ))
    (image_shape : ℚ × ℚ) (max_boxes : Nat)
    (score_threshold iou_threshold : ℚ) : List ℚ × List Box × List Nat :=
  match yolo_outputs with
  | (box_confidence, box_xy, box_wh, box_class_probs) =>
    match yolo_filter_boxes box_confidence (yolo_boxes_to_corners box_xy box_wh)
        box_class_probs score_threshold with
    | (scores, boxes, classes) =>
      yolo_non_max_suppression scores (scale_boxes boxes image_shape) classes
        max_boxes iou_threshold

/-- C2: for every choice of the external helpers and every input,
`yolo_eval` equals the chain corner conversion, score filter with the
score threshold, rescale with the image shape, then NMS with the maximum
count and the IoU threshold; being a plain function of its arguments, it
retains no state between calls. -/
theorem yolo_eval_eq_spec_chain
    (yolo_boxes_to_corners : List (ℚ × ℚ) → List (ℚ × ℚ) → List Box)
    (scale_boxes : List Box → ℚ × ℚ → List Box)
    (yolo_outputs : List ℚ × List (ℚ × ℚ) × List (ℚ × ℚ) × List (List ℚ))
    (image_shape : ℚ × ℚ) (max_boxes : Nat)
    (score_threshold iou_threshold : ℚ) :
    yolo_eval yolo_boxes_to_corners scale_boxes yolo_outputs image_shape
        max_boxes score_threshold iou_threshold =
      yoloEvalSpecChain yolo_boxes_to_corners scale_boxes yolo_outputs image_shape
        max_boxes score_threshold iou_threshold := by
  obtain ⟨box_confidence, box_xy, box_wh, box_class_probs⟩ := yolo_outputs
  rfl

/-- Modelled from the spec: `gc_forward_propagation` lives in the external
`reg_utils` module, absent from the repository; the cost used by the
gradient-checking exercise is the scalar product `J(x, theta) = theta * x`,
the cost consistent with the scenario the spec records. -/
def gc_forward_propagation (x theta : ℚ) : ℚ := theta * x

/-- Modelled from the spec: `gc_backward_propagation` from the external
`reg_utils` module returns the analytic derivative of that cost with
respect to `theta`, namely `x`. -/
def gc_backward_propagation (x theta : ℚ) : ℚ := x

/-- The `gradient_check` function of the notebook: centered-difference
approximation of the gradient at `theta`, then the relative difference
from the analytic gradient (`np.linalg.norm` of a scalar is its absolute
value).  The Boolean records the printed branch condition
`difference < 1e-7`. -/
def gradient_check (x theta epsilon : ℚ) : ℚ × Bool :=
  let theta_plus := theta + epsilon
  let theta_minus := theta - epsilon
  let J_plus := gc_forward_propagation x theta_plus
  let J_minus := gc_forward_propagation x theta_minus
  let gradapprox := (J_plus - J_minus) / (2 * epsilon)
  let grad := gc_backward_propagation x theta
  let numerator := |grad - gradapprox|
  let denominator := |grad| + |gradapprox|
  let difference := numerator / denominator
  (difference, decide (difference < 1 / 10 ^ 7))

/-- C8: `gradient_check` at `x = 2`, `theta = 4` with the default
`epsilon = 1e-7` returns a difference within `2.9e-10` of zero and
strictly below the `1e-7` threshold, so the branch reporting a correct
gradient is taken.  In exact rational arithmetic the centered difference
of the linear cost is exact, so the difference is `0`; the `2.9e-10` of
the console log is 64-bit rounding noise of the same comparison. -/
theorem gradient_check_scenario :
    (gradient_check 2 4 (1 / 10 ^ 7)).1 ≤ 29 / 10 ^ 11 ∧
    (gradient_check 2 4 (1 / 10 ^ 7)).1 < 1 / 10 ^ 7 ∧
    (gradient_check 2 4 (1 / 10 ^ 7)).2 = true := by
  norm_num [gradient_check, gc_forward_propagation, gc_backward_propagation]

/-- The `triplet_loss` function of the notebook over exact rationals: the
anchor, positive and negative encodings are lists of rows, `pos_dist` and
`neg_dist` are rowwise sums of squared differences, `basic_loss` is
`pos_dist - neg_dist + alpha`, and the loss sums `max(basic_loss, 0)` over
the training examples.  The `y_true` argument is unused, as in the
source. -/
def triplet_loss (y_true : Unit)
    (y_pred : List (List ℚ) × List (List ℚ) × List (List ℚ)) (alpha : ℚ) : ℚ :=
  let anchor := y_pred.1
  let positive := y_pred.2.1
  let negative := y_pred.2.2
  let pos_dist :=
    List.zipWith (fun a p => (List.zipWith (fun u v => (u - v) ^ 2) a p).sum)
      anchor positive
  let neg_dist :=
    List.zipWith (fun a n => (List.zipWith (fun u v => (u - v) ^ 2) a n).sum)
      anchor negative
  let basic_loss := List.zipWith (fun p n => p - n + alpha) pos_dist neg_dist
  (basic_loss.map (fun b => max b 0)).sum

/-- C10: `triplet_loss` is non-negative for every triple of encoding
matrices and every margin `alpha`, since it sums `max(basic_loss, 0)` over
the training examples. -/
theorem triplet_loss_nonneg (y_true : Unit)
    (y_pred : List (List ℚ) × List (List ℚ) × List (List ℚ)) (alpha : ℚ) :
    0 ≤ triplet_loss y_true y_pred alpha := by
  simp only [triplet_loss]
  apply List.sum_nonneg
  intro b hb
  simp only [List.mem_map] at hb
  obtain ⟨a, _, rfl⟩ := hb
  exact le_max_right a 0
